import Mathlib

/-!
# Verification of the Task-Scheduler allocation engine

Shallow embedding of `scheduler.py` (the slot generator `_iter_study_slots`
and the allocation engine `build_schedule`), over the data model of
`src/launcher/_internal/models.py`.  Timestamps are minutes since the epoch
1970-01-01 00:00; calendar dates are day numbers (`t / 1440`).  Only
`config.py` is absent from the source tree; its three constants are modelled
from the spec (marked below).  All other content is translated from the
source.
-/

/-- Modelled from the spec: the slot granularity `BLOCK_MINUTES` of the missing
`config.py` (spec: "slot granularity (e.g., 30 minutes)", Scenario A uses 30). -/
def BLOCK_MINUTES : Nat := 30

/-- Modelled from the spec: default daily window start hour of the missing
`config.py` (the application default is 19:00). -/
def DEFAULT_STUDY_START_HOUR : Nat := 19

/-- Modelled from the spec: default daily window end hour of the missing
`config.py` (the application default is 23:00). -/
def DEFAULT_STUDY_END_HOUR : Nat := 23

/-- The `PastTask` record of `src/launcher/_internal/models.py`: a completed
task, carried in the payload but never read by the engine. -/
structure PastTask where
  title : String
  subject : Option String
  time_spent_minutes : Int
  difficulty : Option Int
deriving Repr, DecidableEq

/-- The `TodoTask` record of `src/launcher/_internal/models.py`: title,
optional subject, deadline (datetime, here minutes), required integer
`estimated_time_minutes`, optional difficulty, OPTIONAL priority
(`Optional[int] = None`), and the exam flag. -/
structure TodoTask where
  title : String
  subject : Option String
  deadline : Nat
  estimated_time_minutes : Int
  difficulty : Option Int
  priority : Option Int
  exam_or_not : Bool
deriving Repr, DecidableEq

/-- The `FixedEvent` record of `src/launcher/_internal/models.py`. -/
structure FixedEvent where
  title : String
  start : Nat
  end_ : Nat
deriving Repr, DecidableEq

/-- The `ScheduledBlock` record of `src/launcher/_internal/models.py`: a
title, a start and end timestamp and a kind tag ("fixed" or "todo"). -/
structure ScheduledBlock where
  title : String
  start : Nat
  end_ : Nat
  kind : String
deriving Repr, DecidableEq

/-- The `ParsedInput` record of `src/launcher/_internal/models.py`: past
tasks (ignored by the engine), flexible tasks and fixed events. -/
structure ParsedInput where
  past_tasks : List PastTask
  todos : List TodoTask
  fixed_events : List FixedEvent
deriving Repr, DecidableEq

/-- Hour of day of a timestamp (Python `datetime.hour`). -/
def hourOf (t : Nat) : Nat := t % 1440 / 60

/-- Day of month of a timestamp (Python `datetime.day`), by the standard
civil-from-days calculation for the proleptic Gregorian calendar. -/
def dayOfMonth (t : Nat) : Nat :=
  let z := t / 1440 + 719468
  let doe := z % 146097
  let yoe := (doe - doe / 1460 + doe / 36524 - doe / 146096) / 365
  let doy := doe - (365 * yoe + yoe / 4 - yoe / 100)
  let mp := (5 * doy + 2) / 153
  doy - (153 * mp + 2) / 5 + 1

/-- One day of `_iter_study_slots`: starting at `t` (the day at
`study_start_hour:00`), yield a slot start every `BLOCK_MINUTES` while the
slot's hour stays below `eh`.  The Python `while` loop is driven here by a
fuel argument; 48 steps always suffice for a valid end hour (`eh ≤ 23`),
where the loop provably exits within the day. -/
def slotLoop : Nat → Nat → Nat → List Nat
  | 0, _, _ => []
  | fuel + 1, t, eh =>
    if hourOf t < eh then t :: slotLoop fuel (t + BLOCK_MINUTES) eh else []

/-- Python `_iter_study_slots(start_dt, days, study_start_hour, study_end_hour)`
(scheduler.py lines 10-31): for each of `days` days starting from `start_dt`'s
date, slot starts from `study_start_hour:00` every `BLOCK_MINUTES` while the
hour stays below `study_end_hour`. -/
def iter_study_slots (start_dt : Nat) (days : Nat) (sh eh : Nat) : List Nat :=
  (List.range days).flatMap fun d =>
    slotLoop 48 (((start_dt + d * 1440) / 1440) * 1440 + sh * 60) eh

/-- Python `is_free(start, end)` (scheduler.py lines 102-108): the interval is
free iff it overlaps no committed block. -/
def is_free (blocks : List ScheduledBlock) (start_ stop_ : Nat) : Bool :=
  blocks.all fun b => decide (stop_ ≤ b.start) || decide (b.end_ ≤ start_)

/-- Duration normalization (scheduler.py lines 82-85): a non-positive
estimate becomes 120 minutes.  (The source also guards `is None`; that branch
is unreachable for the well-typed model, where `models.py` declares
`estimated_time_minutes: int` as a required field.) -/
def normEst (t : TodoTask) : Int :=
  if t.estimated_time_minutes ≤ 0 then 120 else t.estimated_time_minutes

/-- Dictionary lookup with default 0 (Python `day_todo_minutes.get(day, 0)`). -/
def getDay (m : List (Nat × Nat)) (k : Nat) : Nat :=
  match m.find? (fun p => p.1 == k) with
  | some p => p.2
  | none => 0

/-- The cram-mode capacity estimate (scheduler.py lines 134-140): a raw
day-of-month difference times the daily cap, plus the partial boundary hours,
minus `BLOCK_MINUTES` for every occupied slot of the scanned window. -/
def cram_capacity (blocks : List ScheduledBlock) (deadline : Nat) (cap : Nat)
    (sh eh : Nat) (s : Nat) : Int :=
  let num_of_days : Int := (dayOfMonth deadline : Int) - (dayOfMonth s : Int) - 1
  let base : Int := num_of_days * (cap : Int)
    + max ((eh : Int) - (hourOf s : Int)) 0 * 60
    + max ((hourOf deadline : Int) - (sh : Int)) 0 * 60
  let window := iter_study_slots s (num_of_days + 2).toNat sh eh
  base - (BLOCK_MINUTES : Int) *
    ((window.filter fun sl => !is_free blocks sl (sl + BLOCK_MINUTES)).length : Int)

/-- One candidate slot of the inner loop of `build_schedule` (scheduler.py
lines 143-168): daily-cap check, conflict check, commit.  Returns the updated
`(remaining, blocks, day_todo_minutes)`. -/
def todo_slot_step (mmpd : Option Nat) (t : TodoTask) (s : Nat) (rem : Int)
    (blocks : List ScheduledBlock) (dtm : List (Nat × Nat)) :
    Int × List ScheduledBlock × List (Nat × Nat) :=
  let slot_end := s + BLOCK_MINUTES
  let capped : Bool :=
    match mmpd with
    | some cap => decide (cap < getDay dtm (s / 1440) + BLOCK_MINUTES)
    | none => false
  if capped then (rem, blocks, dtm)
  else if is_free blocks s slot_end then
    let dtm' :=
      match mmpd with
      | some _ => (s / 1440, getDay dtm (s / 1440) + BLOCK_MINUTES) :: dtm
      | none => dtm
    (rem - (BLOCK_MINUTES : Int), blocks ++ [⟨t.title, s, slot_end, "todo"⟩], dtm')
  else (rem, blocks, dtm)

/-- The inner slot loop of `build_schedule` for one todo (scheduler.py lines
119-168).  `none` models the `TypeError` raised when cram mode multiplies the
day difference by an absent daily cap (line 135). -/
def todo_slot_loop (cram : Bool) (sh eh : Nat) (mmpd : Option Nat) (t : TodoTask)
    (est : Int) :
    List Nat → Int → List ScheduledBlock → List (Nat × Nat) →
    Option (Int × List ScheduledBlock × List (Nat × Nat))
  | [], rem, blocks, dtm => some (rem, blocks, dtm)
  | s :: rest, rem, blocks, dtm =>
    if t.deadline ≤ s then some (rem, blocks, dtm)
    else if rem ≤ 0 then some (rem, blocks, dtm)
    else if cram && t.exam_or_not then
      match mmpd with
      | none => none
      | some cap =>
        if est < cram_capacity blocks t.deadline cap sh eh s then
          todo_slot_loop cram sh eh mmpd t est rest rem blocks dtm
        else
          match todo_slot_step mmpd t s rem blocks dtm with
          | (rem', blocks', dtm') =>
            todo_slot_loop cram sh eh mmpd t est rest rem' blocks' dtm'
    else
      match todo_slot_step mmpd t s rem blocks dtm with
      | (rem', blocks', dtm') =>
        todo_slot_loop cram sh eh mmpd t est rest rem' blocks' dtm'

/-- The outer todo loop of `build_schedule` (scheduler.py lines 111-168):
skip overdue todos, otherwise walk the slot sequence. -/
def process_todos (now : Nat) (slots : List Nat) (cram : Bool) (sh eh : Nat)
    (mmpd : Option Nat) :
    List TodoTask → List ScheduledBlock → List (Nat × Nat) →
    Option (List ScheduledBlock × List (Nat × Nat))
  | [], blocks, dtm => some (blocks, dtm)
  | t :: ts, blocks, dtm =>
    if t.deadline ≤ now then process_todos now slots cram sh eh mmpd ts blocks dtm
    else
      match todo_slot_loop cram sh eh mmpd t (normEst t) slots (normEst t) blocks dtm with
      | none => none
      | some (_, blocks', dtm') =>
        process_todos now slots cram sh eh mmpd ts blocks' dtm'

/-- The two-pass stable task ordering of `build_schedule` (scheduler.py lines
93-97): a stable sort by deadline followed by a stable sort by the optional
priority.  Python's `sorted(todos, key=lambda x: x.priority)` raises
`TypeError` as soon as a comparison involves a `None` priority, which happens
exactly when the list has at least two todos and some todo lacks a priority
(with fewer than two elements no comparison is performed); `none` models that
exception.  On the non-raising domain every priority read by a comparison is
an integer, so the `Option.getD` default below is never the deciding value. -/
def sort_todos (ts : List TodoTask) : Option (List TodoTask) :=
  let todos := List.insertionSort (fun a b => a.deadline ≤ b.deadline) ts
  if 2 ≤ ts.length ∧ ∃ t ∈ ts, t.priority = none then none
  else some (List.insertionSort
    (fun a b => a.priority.getD 0 ≤ b.priority.getD 0) todos)

/-- Seeding of the block list from the fixed events (scheduler.py lines 88-91). -/
def fixed_blocks (es : List FixedEvent) : List ScheduledBlock :=
  es.map fun e => ⟨e.title, e.start, e.end_, "fixed"⟩

/-- The final stable sort of the output by start time (scheduler.py line 171). -/
def sort_blocks (bs : List ScheduledBlock) : List ScheduledBlock :=
  List.insertionSort (fun a b => a.start ≤ b.start) bs

/-- Effective start date (scheduler.py lines 56-60): the caller's start date
clamped to not precede today; today when absent. -/
def effective_date (start_date : Option Nat) (today : Nat) : Nat :=
  match start_date with
  | none => today
  | some d => max d today

/-- Window normalization (scheduler.py lines 69-71): if the end hour is not
after the start hour, force one hour after the start, capped at 23. -/
def normalized_end_hour (sh eh : Nat) : Nat :=
  if eh ≤ sh then min (sh + 1) 23 else eh

/-- Python `build_schedule` (scheduler.py lines 34-172).  `now` is the
wall-clock time captured at the start of the call; dates are day numbers.
The result is `none` exactly when the Python function raises. -/
def build_schedule (parsed : ParsedInput) (days : Nat) (start_date : Option Nat)
    (max_hours_per_day : Option Nat) (study_start_hour study_end_hour : Option Nat)
    (cram_or_not : Bool) (now : Nat) : Option (List ScheduledBlock) :=
  let today := now / 1440
  let sh := study_start_hour.getD DEFAULT_STUDY_START_HOUR
  let eh := normalized_end_hour sh (study_end_hour.getD DEFAULT_STUDY_END_HOUR)
  let start_base := effective_date start_date today * 1440
  let mmpd := max_hours_per_day.map (· * 60)
  let slots := iter_study_slots start_base days sh eh
  match sort_todos parsed.todos with
  | none => none
  | some todos =>
    (process_todos now slots cram_or_not sh eh mmpd todos
        (fixed_blocks parsed.fixed_events) []).map fun r => sort_blocks r.1

/-- Follows the spec's words (for comparison with `todo_slot_loop`): identical
to the source loop except that, as the spec describes the cram deferral, the
capacity estimate is compared against "the task's remaining minutes" — the
minutes still unscheduled — instead of the total estimated duration. -/
def todo_slot_loop_remaining (cram : Bool) (sh eh : Nat) (mmpd : Option Nat)
    (t : TodoTask) (est : Int) :
    List Nat → Int → List ScheduledBlock → List (Nat × Nat) →
    Option (Int × List ScheduledBlock × List (Nat × Nat))
  | [], rem, blocks, dtm => some (rem, blocks, dtm)
  | s :: rest, rem, blocks, dtm =>
    if t.deadline ≤ s then some (rem, blocks, dtm)
    else if rem ≤ 0 then some (rem, blocks, dtm)
    else if cram && t.exam_or_not then
      match mmpd with
      | none => none
      | some cap =>
        if rem < cram_capacity blocks t.deadline cap sh eh s then
          todo_slot_loop_remaining cram sh eh mmpd t est rest rem blocks dtm
        else
          match todo_slot_step mmpd t s rem blocks dtm with
          | (rem', blocks', dtm') =>
            todo_slot_loop_remaining cram sh eh mmpd t est rest rem' blocks' dtm'
    else
      match todo_slot_step mmpd t s rem blocks dtm with
      | (rem', blocks', dtm') =>
        todo_slot_loop_remaining cram sh eh mmpd t est rest rem' blocks' dtm'

/-- Follows the spec's words: `process_todos` with the spec's cram comparison
(`todo_slot_loop_remaining` in place of `todo_slot_loop`). -/
def process_todos_remaining (now : Nat) (slots : List Nat) (cram : Bool)
    (sh eh : Nat) (mmpd : Option Nat) :
    List TodoTask → List ScheduledBlock → List (Nat × Nat) →
    Option (List ScheduledBlock × List (Nat × Nat))
  | [], blocks, dtm => some (blocks, dtm)
  | t :: ts, blocks, dtm =>
    if t.deadline ≤ now then
      process_todos_remaining now slots cram sh eh mmpd ts blocks dtm
    else
      match todo_slot_loop_remaining cram sh eh mmpd t (normEst t) slots
          (normEst t) blocks dtm with
      | none => none
      | some (_, blocks', dtm') =>
        process_todos_remaining now slots cram sh eh mmpd ts blocks' dtm'

/-- Follows the spec's words: `build_schedule` with the spec's cram comparison
(deferral while the capacity estimate exceeds the remaining, not the total,
minutes of the task). -/
def build_schedule_remaining (parsed : ParsedInput) (days : Nat)
    (start_date : Option Nat) (max_hours_per_day : Option Nat)
    (study_start_hour study_end_hour : Option Nat)
    (cram_or_not : Bool) (now : Nat) : Option (List ScheduledBlock) :=
  let today := now / 1440
  let sh := study_start_hour.getD DEFAULT_STUDY_START_HOUR
  let eh := normalized_end_hour sh (study_end_hour.getD DEFAULT_STUDY_END_HOUR)
  let start_base := effective_date start_date today * 1440
  let mmpd := max_hours_per_day.map (· * 60)
  let slots := iter_study_slots start_base days sh eh
  match sort_todos parsed.todos with
  | none => none
  | some todos =>
    (process_todos_remaining now slots cram_or_not sh eh mmpd todos
        (fixed_blocks parsed.fixed_events) []).map fun r => sort_blocks r.1

/-- Two blocks do not overlap: one ends no later than the other starts.  This
is the (symmetric) negation of the conflict test inside `is_free`. -/
def no_overlap (a b : ScheduledBlock) : Prop :=
  a.end_ ≤ b.start ∨ b.end_ ≤ a.start

instance (a b : ScheduledBlock) : Decidable (no_overlap a b) := by
  unfold no_overlap; infer_instance

/-- Total minutes of committed flexible ("todo") blocks carrying a given
title, the aggregation the application reports per task. -/
def todo_minutes (T : String) (bs : List ScheduledBlock) : Nat :=
  ((bs.filter fun b => b.kind == "todo" && b.title == T).map
    fun b => b.end_ - b.start).sum

/-! ## Properties of the slot generator -/

theorem slotLoop_eq_of (eh : Nat) (heh : eh ≤ 23) :
    ∀ (n fuel D off : Nat), off + 30 * n = eh * 60 → n ≤ fuel →
      slotLoop fuel (D * 1440 + off) eh =
        (List.range n).map (fun k => D * 1440 + off + 30 * k) := by
  intro n
  induction n with
  | zero =>
    intro fuel D off hoff _
    have hofflt : off < 1440 := by omega
    have hmod : (D * 1440 + off) % 1440 = off := by
      rw [Nat.add_comm, Nat.add_mul_mod_self_right, Nat.mod_eq_of_lt hofflt]
    have hhour : hourOf (D * 1440 + off) = eh := by
      simp only [hourOf, hmod]
      omega
    cases fuel with
    | zero => simp [slotLoop]
    | succ f => simp [slotLoop, hhour]
  | succ m ih =>
    intro fuel D off hoff hfuel
    have hofflt : off < eh * 60 := by omega
    have hoff1440 : off < 1440 := by omega
    have hmod : (D * 1440 + off) % 1440 = off := by
      rw [Nat.add_comm, Nat.add_mul_mod_self_right, Nat.mod_eq_of_lt hoff1440]
    have hhour : hourOf (D * 1440 + off) < eh := by
      simp only [hourOf, hmod]
      omega
    cases fuel with
    | zero => omega
    | succ f =>
      have hstep : D * 1440 + off + BLOCK_MINUTES = D * 1440 + (off + 30) := by
        simp [BLOCK_MINUTES]
        omega
      have hrec := ih f D (off + 30) (by omega) (by omega)
      simp only [slotLoop, if_pos hhour, hstep, hrec, List.range_succ_eq_map,
        List.map_cons, List.map_map, List.cons.injEq]
      refine ⟨by omega, ?_⟩
      apply List.map_congr_left
      intro a _
      simp only [Function.comp_apply, Nat.succ_eq_add_one]
      omega

theorem slotLoop_day (sh eh : Nat) (hsh : sh ≤ 23) (heh : eh ≤ 23) (D : Nat) :
    slotLoop 48 (D * 1440 + sh * 60) eh =
      (List.range (2 * (eh - sh))).map (fun k => D * 1440 + sh * 60 + 30 * k) := by
  by_cases h : sh < eh
  · exact slotLoop_eq_of eh heh (2 * (eh - sh)) 48 D (sh * 60) (by omega) (by omega)
  · have h0 : 2 * (eh - sh) = 0 := by omega
    have hmod : (D * 1440 + sh * 60) % 1440 = sh * 60 := by
      rw [Nat.add_comm, Nat.add_mul_mod_self_right, Nat.mod_eq_of_lt (by omega)]
    have hhour : ¬ hourOf (D * 1440 + sh * 60) < eh := by
      simp only [hourOf, hmod]
      omega
    have hunfold : slotLoop 48 (D * 1440 + sh * 60) eh =
        if hourOf (D * 1440 + sh * 60) < eh then
          (D * 1440 + sh * 60) :: slotLoop 47 (D * 1440 + sh * 60 + BLOCK_MINUTES) eh
        else [] := rfl
    simp [h0, hunfold, hhour]

theorem iter_study_slots_eq (anchor days sh eh : Nat) (hsh : sh ≤ 23)
    (heh : eh ≤ 23) :
    iter_study_slots anchor days sh eh =
      (List.range days).flatMap fun d =>
        (List.range (2 * (eh - sh))).map
          (fun k => (anchor / 1440 + d) * 1440 + sh * 60 + 30 * k) := by
  unfold iter_study_slots
  apply List.flatMap_congr
  intro d _
  have hdiv : (anchor + d * 1440) / 1440 = anchor / 1440 + d :=
    Nat.add_mul_div_right anchor d (by omega)
  rw [hdiv]
  exact slotLoop_day sh eh hsh heh (anchor / 1440 + d)

theorem mem_iter_study_slots {s anchor days sh eh : Nat} (hsh : sh ≤ 23)
    (heh : eh ≤ 23) :
    s ∈ iter_study_slots anchor days sh eh ↔
      ∃ d, d < days ∧ ∃ k, k < 2 * (eh - sh) ∧
        s = (anchor / 1440 + d) * 1440 + sh * 60 + 30 * k := by
  rw [iter_study_slots_eq anchor days sh eh hsh heh]
  simp only [List.mem_flatMap, List.mem_map, List.mem_range]
  constructor
  · rintro ⟨d, hd, k, hk, rfl⟩
    exact ⟨d, hd, k, hk, rfl⟩
  · rintro ⟨d, hd, k, hk, rfl⟩
    exact ⟨d, hd, k, hk, rfl⟩

/-- C5: for every anchor timestamp, every number of days and every pair of
window hours (valid clock hours, 0-23, as enforced for the start hour by
Python's `datetime.replace` and assumed for the end hour), `_iter_study_slots`
yields a finite list of slot starts that is strictly ascending in time and
bounded by the horizon of `days` days from the anchor's date. -/
theorem iter_study_slots_ascending_bounded (anchor days sh eh : Nat)
    (hsh : sh ≤ 23) (heh : eh ≤ 23) :
    (iter_study_slots anchor days sh eh).Pairwise (· < ·) ∧
      ∀ s ∈ iter_study_slots anchor days sh eh,
        anchor / 1440 * 1440 ≤ s ∧ s < anchor / 1440 * 1440 + days * 1440 := by
  constructor
  · rw [iter_study_slots_eq anchor days sh eh hsh heh, List.pairwise_flatMap]
    constructor
    · intro d _
      rw [List.pairwise_map]
      exact (List.pairwise_lt_range _).imp (fun hij => by omega)
    · refine (List.pairwise_lt_range days).imp ?_
      intro d₁ d₂ hd x hx y hy
      simp only [List.mem_map, List.mem_range] at hx hy
      obtain ⟨k₁, hk₁, rfl⟩ := hx
      obtain ⟨k₂, hk₂, rfl⟩ := hy
      omega
  · intro s hs
    rw [mem_iter_study_slots hsh heh] at hs
    obtain ⟨d, hd, k, hk, rfl⟩ := hs
    omega

/-! ## Properties of the allocation engine -/

theorem todo_slot_step_cases (mmpd : Option Nat) (t : TodoTask) (s : Nat) (rem : Int)
    (blocks : List ScheduledBlock) (dtm : List (Nat × Nat)) :
    todo_slot_step mmpd t s rem blocks dtm = (rem, blocks, dtm) ∨
      (is_free blocks s (s + BLOCK_MINUTES) = true ∧
        ∃ dtm', todo_slot_step mmpd t s rem blocks dtm =
          (rem - (BLOCK_MINUTES : Int),
            blocks ++ [⟨t.title, s, s + BLOCK_MINUTES, "todo"⟩], dtm')) := by
  unfold todo_slot_step
  by_cases hc : (match mmpd with
    | some cap => decide (cap < getDay dtm (s / 1440) + BLOCK_MINUTES)
    | none => false) = true
  · left
    simp only [hc, if_true]
  · by_cases hf : is_free blocks s (s + BLOCK_MINUTES) = true
    · right
      refine ⟨hf, ?_⟩
      simp only [Bool.not_eq_true] at hc
      simp only [hc, Bool.false_eq_true, if_false, hf, if_true]
      exact ⟨_, rfl⟩
    · left
      simp only [Bool.not_eq_true] at hc hf
      simp only [hc, Bool.false_eq_true, if_false, hf]

theorem todo_slot_loop_spec (cram : Bool) (sh eh : Nat) (mmpd : Option Nat)
    (t : TodoTask) (est : Int) :
    ∀ (slots : List Nat) (rem : Int) (blocks : List ScheduledBlock)
      (dtm : List (Nat × Nat)) (rem' : Int) (blocks' : List ScheduledBlock)
      (dtm' : List (Nat × Nat)),
      todo_slot_loop cram sh eh mmpd t est slots rem blocks dtm =
        some (rem', blocks', dtm') →
      ∃ ns, blocks' = blocks ++ ns ∧
        (∀ b ∈ ns, b.kind = "todo" ∧ b.title = t.title ∧
          b.end_ = b.start + BLOCK_MINUTES ∧ b.start ∈ slots ∧
          b.start < t.deadline) ∧
        rem' = rem - (BLOCK_MINUTES : Int) * ns.length ∧
        (ns = [] ∧ rem' = rem ∨ 0 < rem ∧ -(BLOCK_MINUTES : Int) < rem') := by
  intro slots
  induction slots with
  | nil =>
    intro rem blocks dtm rem' blocks' dtm' h
    simp only [todo_slot_loop, Option.some.injEq, Prod.mk.injEq] at h
    obtain ⟨rfl, rfl, rfl⟩ := h
    exact ⟨[], by simp⟩
  | cons s rest ih =>
    intro rem blocks dtm rem' blocks' dtm' h
    simp only [todo_slot_loop] at h
    have hid : todo_slot_loop cram sh eh mmpd t est rest rem blocks dtm =
        some (rem', blocks', dtm') →
        ∃ ns, blocks' = blocks ++ ns ∧
          (∀ b ∈ ns, b.kind = "todo" ∧ b.title = t.title ∧
            b.end_ = b.start + BLOCK_MINUTES ∧ b.start ∈ s :: rest ∧
            b.start < t.deadline) ∧
          rem' = rem - (BLOCK_MINUTES : Int) * ns.length ∧
          (ns = [] ∧ rem' = rem ∨ 0 < rem ∧ -(BLOCK_MINUTES : Int) < rem') := by
      intro h'
      obtain ⟨ns, rfl, hprops, hrem', hdisj⟩ :=
        ih rem blocks dtm rem' blocks' dtm' h'
      refine ⟨ns, rfl, ?_, hrem', hdisj⟩
      intro b hb
      obtain ⟨k1, k2, k3, k4, k5⟩ := hprops b hb
      exact ⟨k1, k2, k3, List.mem_cons_of_mem s k4, k5⟩
    have hstay : rem = rem' → blocks = blocks' → dtm = dtm' →
        ∃ ns, blocks' = blocks ++ ns ∧
          (∀ b ∈ ns, b.kind = "todo" ∧ b.title = t.title ∧
            b.end_ = b.start + BLOCK_MINUTES ∧ b.start ∈ s :: rest ∧
            b.start < t.deadline) ∧
          rem' = rem - (BLOCK_MINUTES : Int) * ns.length ∧
          (ns = [] ∧ rem' = rem ∨ 0 < rem ∧ -(BLOCK_MINUTES : Int) < rem') := by
      rintro rfl rfl rfl
      exact ⟨[], by simp⟩
    by_cases hdl : t.deadline ≤ s
    case pos =>
      rw [if_pos hdl] at h
      simp only [Option.some.injEq, Prod.mk.injEq] at h
      exact hstay h.1 h.2.1 h.2.2
    case neg =>
    rw [if_neg hdl] at h
    by_cases hrem : rem ≤ 0
    case pos =>
      rw [if_pos hrem] at h
      simp only [Option.some.injEq, Prod.mk.injEq] at h
      exact hstay h.1 h.2.1 h.2.2
    case neg =>
    have hB : todo_slot_loop cram sh eh mmpd t est rest
        (todo_slot_step mmpd t s rem blocks dtm).1
        (todo_slot_step mmpd t s rem blocks dtm).2.1
        (todo_slot_step mmpd t s rem blocks dtm).2.2 =
        some (rem', blocks', dtm') →
        ∃ ns, blocks' = blocks ++ ns ∧
          (∀ b ∈ ns, b.kind = "todo" ∧ b.title = t.title ∧
            b.end_ = b.start + BLOCK_MINUTES ∧ b.start ∈ s :: rest ∧
            b.start < t.deadline) ∧
          rem' = rem - (BLOCK_MINUTES : Int) * ns.length ∧
          (ns = [] ∧ rem' = rem ∨ 0 < rem ∧ -(BLOCK_MINUTES : Int) < rem') := by
      intro h'
      rcases todo_slot_step_cases mmpd t s rem blocks dtm with
        heq | ⟨hfree, dtm₂, heq⟩
      · simp only [heq] at h'
        exact hid h'
      · simp only [heq] at h'
        obtain ⟨ns₁, hb', hprops, hrem', hdisj⟩ :=
          ih (rem - (BLOCK_MINUTES : Int))
            (blocks ++ [⟨t.title, s, s + BLOCK_MINUTES, "todo"⟩]) dtm₂
            rem' blocks' dtm' h'
        refine ⟨⟨t.title, s, s + BLOCK_MINUTES, "todo"⟩ :: ns₁, ?_, ?_, ?_, ?_⟩
        · rw [hb', List.append_assoc]
          rfl
        · intro b hb
          rcases List.mem_cons.mp hb with rfl | hbn
          · refine ⟨rfl, rfl, rfl, List.mem_cons_self s rest, ?_⟩
            show s < t.deadline
            omega
          · obtain ⟨k1, k2, k3, k4, k5⟩ := hprops b hbn
            exact ⟨k1, k2, k3, List.mem_cons_of_mem s k4, k5⟩
        · rw [hrem']
          simp only [List.length_cons]
          push_cast
          ring
        · refine Or.inr ⟨by omega, ?_⟩
          rcases hdisj with ⟨_, hr⟩ | ⟨_, hr⟩
          · rw [hr]
            simp only [BLOCK_MINUTES]
            omega
          · exact hr
    rw [if_neg hrem] at h
    by_cases hcx : (cram && t.exam_or_not) = true
    case pos =>
      rw [if_pos hcx] at h
      cases mmpd with
      | none => exact absurd h (by simp)
      | some cap =>
        simp only at h
        by_cases hcap : est < cram_capacity blocks t.deadline cap sh eh s
        case pos =>
          rw [if_pos hcap] at h
          exact hid h
        case neg =>
          rw [if_neg hcap] at h
          exact hB h
    case neg =>
      rw [if_neg hcx] at h
      exact hB h

theorem no_overlap_symm {a b : ScheduledBlock} (h : no_overlap a b) :
    no_overlap b a := Or.symm h

theorem is_free_no_overlap {blocks : List ScheduledBlock} {s e : Nat}
    (h : is_free blocks s e = true) (tt kk : String) :
    ∀ b ∈ blocks, no_overlap b ⟨tt, s, e, kk⟩ := by
  intro b hb
  simp only [is_free, List.all_eq_true, Bool.or_eq_true, decide_eq_true_eq] at h
  exact Or.symm (h b hb)

theorem todo_slot_step_nov (mmpd : Option Nat) (t : TodoTask) (s : Nat) (rem : Int)
    (blocks : List ScheduledBlock) (dtm : List (Nat × Nat))
    (h : blocks.Pairwise no_overlap) :
    ((todo_slot_step mmpd t s rem blocks dtm).2.1).Pairwise no_overlap := by
  rcases todo_slot_step_cases mmpd t s rem blocks dtm with heq | ⟨hfree, dtm₂, heq⟩
  · rw [heq]
    exact h
  · rw [heq]
    show (blocks ++ [(⟨t.title, s, s + BLOCK_MINUTES, "todo"⟩ : ScheduledBlock)]).Pairwise no_overlap
    rw [List.pairwise_append]
    refine ⟨h, List.pairwise_singleton _ _, ?_⟩
    intro a ha c hc
    rw [List.mem_singleton] at hc
    subst hc
    exact is_free_no_overlap hfree t.title "todo" a ha

theorem todo_slot_loop_preserves (P : List ScheduledBlock → Prop)
    (hstep : ∀ (mmpd : Option Nat) (t : TodoTask) (s : Nat) (rem : Int)
      (blocks : List ScheduledBlock) (dtm : List (Nat × Nat)), P blocks →
      P (todo_slot_step mmpd t s rem blocks dtm).2.1)
    (cram : Bool) (sh eh : Nat) (mmpd : Option Nat) (t : TodoTask) (est : Int) :
    ∀ (slots : List Nat) (rem : Int) (blocks : List ScheduledBlock)
      (dtm : List (Nat × Nat)) (rem' : Int) (blocks' : List ScheduledBlock)
      (dtm' : List (Nat × Nat)),
      todo_slot_loop cram sh eh mmpd t est slots rem blocks dtm =
        some (rem', blocks', dtm') → P blocks → P blocks' := by
  intro slots
  induction slots with
  | nil =>
    intro rem blocks dtm rem' blocks' dtm' h hP
    simp only [todo_slot_loop, Option.some.injEq, Prod.mk.injEq] at h
    obtain ⟨_, rfl, _⟩ := h
    exact hP
  | cons s rest ih =>
    intro rem blocks dtm rem' blocks' dtm' h hP
    simp only [todo_slot_loop] at h
    by_cases hdl : t.deadline ≤ s
    case pos =>
      rw [if_pos hdl] at h
      simp only [Option.some.injEq, Prod.mk.injEq] at h
      obtain ⟨_, rfl, _⟩ := h
      exact hP
    case neg =>
    rw [if_neg hdl] at h
    by_cases hrem : rem ≤ 0
    case pos =>
      rw [if_pos hrem] at h
      simp only [Option.some.injEq, Prod.mk.injEq] at h
      obtain ⟨_, rfl, _⟩ := h
      exact hP
    case neg =>
    rw [if_neg hrem] at h
    have hB : todo_slot_loop cram sh eh mmpd t est rest
        (todo_slot_step mmpd t s rem blocks dtm).1
        (todo_slot_step mmpd t s rem blocks dtm).2.1
        (todo_slot_step mmpd t s rem blocks dtm).2.2 =
        some (rem', blocks', dtm') → P blocks' := fun h' =>
      ih (todo_slot_step mmpd t s rem blocks dtm).1
        (todo_slot_step mmpd t s rem blocks dtm).2.1
        (todo_slot_step mmpd t s rem blocks dtm).2.2 rem' blocks' dtm' h'
        (hstep mmpd t s rem blocks dtm hP)
    by_cases hcx : (cram && t.exam_or_not) = true
    case pos =>
      rw [if_pos hcx] at h
      cases mmpd with
      | none => exact absurd h (by simp)
      | some cap =>
        simp only at h
        by_cases hcap : est < cram_capacity blocks t.deadline cap sh eh s
        case pos =>
          rw [if_pos hcap] at h
          exact ih rem blocks dtm rem' blocks' dtm' h hP
        case neg =>
          rw [if_neg hcap] at h
          exact hB h
    case neg =>
      rw [if_neg hcx] at h
      exact hB h

theorem process_todos_spec (now : Nat) (slots : List Nat) (cram : Bool)
    (sh eh : Nat) (mmpd : Option Nat) :
    ∀ (ts : List TodoTask) (blocks : List ScheduledBlock) (dtm : List (Nat × Nat))
      (blocks' : List ScheduledBlock) (dtm' : List (Nat × Nat)),
      process_todos now slots cram sh eh mmpd ts blocks dtm =
        some (blocks', dtm') →
      ∃ ns, blocks' = blocks ++ ns ∧
        ∀ b ∈ ns, ∃ t0, t0 ∈ ts ∧ now < t0.deadline ∧ b.kind = "todo" ∧
          b.title = t0.title ∧ b.end_ = b.start + BLOCK_MINUTES ∧
          b.start ∈ slots ∧ b.start < t0.deadline := by
  intro ts
  induction ts with
  | nil =>
    intro blocks dtm blocks' dtm' h
    simp only [process_todos, Option.some.injEq, Prod.mk.injEq] at h
    obtain ⟨rfl, rfl⟩ := h
    exact ⟨[], by simp⟩
  | cons t ts ih =>
    intro blocks dtm blocks' dtm' h
    simp only [process_todos] at h
    by_cases hdl : t.deadline ≤ now
    case pos =>
      rw [if_pos hdl] at h
      obtain ⟨ns, rfl, hprops⟩ := ih blocks dtm blocks' dtm' h
      refine ⟨ns, rfl, ?_⟩
      intro b hb
      obtain ⟨t0, ht0, hrest⟩ := hprops b hb
      exact ⟨t0, List.mem_cons_of_mem t ht0, hrest⟩
    case neg =>
      rw [if_neg hdl] at h
      rcases hloop : todo_slot_loop cram sh eh mmpd t (normEst t) slots
          (normEst t) blocks dtm with _ | ⟨rem₁, blocks₁, dtm₁⟩
      · rw [hloop] at h
        exact absurd h (by simp)
      · rw [hloop] at h
        simp only at h
        obtain ⟨ns₀, rfl, hprops₀, _, _⟩ :=
          todo_slot_loop_spec cram sh eh mmpd t (normEst t) slots (normEst t)
            blocks dtm rem₁ blocks₁ dtm₁ hloop
        obtain ⟨ns₁, rfl, hprops₁⟩ := ih (blocks ++ ns₀) dtm₁ blocks' dtm' h
        refine ⟨ns₀ ++ ns₁, by rw [List.append_assoc], ?_⟩
        intro b hb
        rcases List.mem_append.mp hb with hb0 | hb1
        · obtain ⟨k1, k2, k3, k4, k5⟩ := hprops₀ b hb0
          exact ⟨t, List.mem_cons_self t ts, by omega, k1, k2, k3, k4, k5⟩
        · obtain ⟨t0, ht0, hrest⟩ := hprops₁ b hb1
          exact ⟨t0, List.mem_cons_of_mem t ht0, hrest⟩

theorem process_todos_preserves (P : List ScheduledBlock → Prop)
    (hstep : ∀ (mmpd : Option Nat) (t : TodoTask) (s : Nat) (rem : Int)
      (blocks : List ScheduledBlock) (dtm : List (Nat × Nat)), P blocks →
      P (todo_slot_step mmpd t s rem blocks dtm).2.1)
    (now : Nat) (slots : List Nat) (cram : Bool) (sh eh : Nat)
    (mmpd : Option Nat) :
    ∀ (ts : List TodoTask) (blocks : List ScheduledBlock) (dtm : List (Nat × Nat))
      (blocks' : List ScheduledBlock) (dtm' : List (Nat × Nat)),
      process_todos now slots cram sh eh mmpd ts blocks dtm =
        some (blocks', dtm') → P blocks → P blocks' := by
  intro ts
  induction ts with
  | nil =>
    intro blocks dtm blocks' dtm' h hP
    simp only [process_todos, Option.some.injEq, Prod.mk.injEq] at h
    obtain ⟨rfl, rfl⟩ := h
    exact hP
  | cons t ts ih =>
    intro blocks dtm blocks' dtm' h hP
    simp only [process_todos] at h
    by_cases hdl : t.deadline ≤ now
    case pos =>
      rw [if_pos hdl] at h
      exact ih blocks dtm blocks' dtm' h hP
    case neg =>
      rw [if_neg hdl] at h
      rcases hloop : todo_slot_loop cram sh eh mmpd t (normEst t) slots
          (normEst t) blocks dtm with _ | ⟨rem₁, blocks₁, dtm₁⟩
      · rw [hloop] at h
        exact absurd h (by simp)
      · rw [hloop] at h
        simp only at h
        exact ih blocks₁ dtm₁ blocks' dtm' h
          (todo_slot_loop_preserves P hstep cram sh eh mmpd t (normEst t)
            slots (normEst t) blocks dtm rem₁ blocks₁ dtm₁ hloop hP)

theorem todo_minutes_append (T : String) (l₁ l₂ : List ScheduledBlock) :
    todo_minutes T (l₁ ++ l₂) = todo_minutes T l₁ + todo_minutes T l₂ := by
  simp [todo_minutes, List.filter_append]

theorem todo_minutes_perm (T : String) {l₁ l₂ : List ScheduledBlock}
    (h : l₁.Perm l₂) : todo_minutes T l₁ = todo_minutes T l₂ :=
  ((h.filter _).map _).sum_eq

theorem todo_minutes_fixed_blocks (T : String) (es : List FixedEvent) :
    todo_minutes T (fixed_blocks es) = 0 := by
  have : (fixed_blocks es).filter (fun b => b.kind == "todo" && b.title == T) = [] := by
    rw [List.filter_eq_nil_iff]
    intro b hb
    simp only [fixed_blocks, List.mem_map] at hb
    obtain ⟨e, _, rfl⟩ := hb
    simp
  simp [todo_minutes, this]

theorem normEst_pos (t : TodoTask) : 1 ≤ normEst t := by
  unfold normEst
  by_cases he : t.estimated_time_minutes ≤ 0
  · simp [he]
  · simp only [he, if_false]
    omega

theorem todo_minutes_all_title (T : String) (ns : List ScheduledBlock)
    (h : ∀ b ∈ ns, b.kind = "todo" ∧ b.title = T ∧
      b.end_ = b.start + BLOCK_MINUTES) :
    todo_minutes T ns = BLOCK_MINUTES * ns.length := by
  unfold todo_minutes
  have hfil : ns.filter (fun b => b.kind == "todo" && b.title == T) = ns := by
    rw [List.filter_eq_self]
    intro b hb
    obtain ⟨k1, k2, _⟩ := h b hb
    simp [k1, k2]
  rw [hfil]
  have hmap : ns.map (fun b => b.end_ - b.start) =
      ns.map (Function.const ScheduledBlock BLOCK_MINUTES) := by
    apply List.map_congr_left
    intro b hb
    obtain ⟨_, _, k3⟩ := h b hb
    simp [Function.const, k3]
  rw [hmap, List.map_const, List.sum_replicate, smul_eq_mul, Nat.mul_comm]

theorem todo_minutes_other_title (T : String) (T' : String) (hne : T' ≠ T)
    (ns : List ScheduledBlock) (h : ∀ b ∈ ns, b.title = T') :
    todo_minutes T ns = 0 := by
  have hfil : ns.filter (fun b => b.kind == "todo" && b.title == T) = [] := by
    rw [List.filter_eq_nil_iff]
    intro b hb
    simp [h b hb, hne]
  simp [todo_minutes, hfil]

theorem process_todos_budget (T : String) (now : Nat) (slots : List Nat)
    (cram : Bool) (sh eh : Nat) (mmpd : Option Nat) :
    ∀ (ts : List TodoTask) (blocks : List ScheduledBlock) (dtm : List (Nat × Nat))
      (blocks' : List ScheduledBlock) (dtm' : List (Nat × Nat)),
      process_todos now slots cram sh eh mmpd ts blocks dtm =
        some (blocks', dtm') →
      todo_minutes T blocks' ≤ todo_minutes T blocks +
        ((ts.filter fun t0 => t0.title == T).map fun t0 =>
          BLOCK_MINUTES * (((normEst t0).toNat + (BLOCK_MINUTES - 1)) /
            BLOCK_MINUTES)).sum := by
  intro ts
  induction ts with
  | nil =>
    intro blocks dtm blocks' dtm' h
    simp only [process_todos, Option.some.injEq, Prod.mk.injEq] at h
    obtain ⟨rfl, rfl⟩ := h
    simp
  | cons t ts ih =>
    intro blocks dtm blocks' dtm' h
    simp only [process_todos] at h
    have hmono : ((ts.filter fun t0 => t0.title == T).map fun t0 =>
        BLOCK_MINUTES * (((normEst t0).toNat + (BLOCK_MINUTES - 1)) /
          BLOCK_MINUTES)).sum ≤
        (((t :: ts).filter fun t0 => t0.title == T).map fun t0 =>
          BLOCK_MINUTES * (((normEst t0).toNat + (BLOCK_MINUTES - 1)) /
            BLOCK_MINUTES)).sum := by
      rw [List.filter_cons]
      by_cases ht : (t.title == T) = true
      · simp [ht]
      · simp [ht]
    by_cases hdl : t.deadline ≤ now
    case pos =>
      rw [if_pos hdl] at h
      exact le_trans (ih blocks dtm blocks' dtm' h) (by omega)
    case neg =>
      rw [if_neg hdl] at h
      rcases hloop : todo_slot_loop cram sh eh mmpd t (normEst t) slots
          (normEst t) blocks dtm with _ | ⟨rem₁, blocks₁, dtm₁⟩
      · rw [hloop] at h
        exact absurd h (by simp)
      · rw [hloop] at h
        simp only at h
        obtain ⟨ns₀, rfl, hprops₀, hrem₁, hdisj⟩ :=
          todo_slot_loop_spec cram sh eh mmpd t (normEst t) slots (normEst t)
            blocks dtm rem₁ blocks₁ dtm₁ hloop
        have hlen : BLOCK_MINUTES * ns₀.length ≤
            BLOCK_MINUTES * (((normEst t).toNat + (BLOCK_MINUTES - 1)) /
              BLOCK_MINUTES) := by
          have hest := normEst_pos t
          have hbound : (BLOCK_MINUTES : Int) * ns₀.length ≤ normEst t +
              ((BLOCK_MINUTES : Int) - 1) := by
            rcases hdisj with ⟨hns, _⟩ | ⟨_, hlt⟩
            · subst hns
              simp only [List.length_nil, Nat.cast_zero, mul_zero]
              omega
            · rw [hrem₁] at hlt
              omega
          apply Nat.mul_le_mul_left
          rw [Nat.le_div_iff_mul_le (by simp [BLOCK_MINUTES] : 0 < BLOCK_MINUTES)]
          simp only [BLOCK_MINUTES] at hbound ⊢
          omega
        calc todo_minutes T blocks' ≤
            todo_minutes T (blocks ++ ns₀) +
              ((ts.filter fun t0 => t0.title == T).map fun t0 =>
                BLOCK_MINUTES * (((normEst t0).toNat + (BLOCK_MINUTES - 1)) /
                  BLOCK_MINUTES)).sum := ih (blocks ++ ns₀) dtm₁ blocks' dtm' h
          _ ≤ todo_minutes T blocks +
              (((t :: ts).filter fun t0 => t0.title == T).map fun t0 =>
                BLOCK_MINUTES * (((normEst t0).toNat + (BLOCK_MINUTES - 1)) /
                  BLOCK_MINUTES)).sum := by
            rw [todo_minutes_append]
            by_cases ht : (t.title == T) = true
            · have hTeq : t.title = T := by simpa using ht
              have hmin : todo_minutes T ns₀ = BLOCK_MINUTES * ns₀.length := by
                apply todo_minutes_all_title
                intro b hb
                obtain ⟨k1, k2, k3, _, _⟩ := hprops₀ b hb
                exact ⟨k1, hTeq ▸ k2, k3⟩
              rw [List.filter_cons, if_pos ht, List.map_cons, List.sum_cons, hmin]
              omega
            · have hTne : t.title ≠ T := by simpa using ht
              have hmin : todo_minutes T ns₀ = 0 := by
                apply todo_minutes_other_title T t.title hTne
                intro b hb
                exact (hprops₀ b hb).2.1
              rw [List.filter_cons, if_neg (by simpa using ht), hmin]
              omega

theorem todo_slot_loop_cram_of_not_exam (sh eh : Nat) (mmpd : Option Nat)
    (t : TodoTask) (est : Int) (hex : t.exam_or_not = false) :
    ∀ (slots : List Nat) (rem : Int) (blocks : List ScheduledBlock)
      (dtm : List (Nat × Nat)),
      todo_slot_loop true sh eh mmpd t est slots rem blocks dtm =
        todo_slot_loop false sh eh mmpd t est slots rem blocks dtm := by
  intro slots
  induction slots with
  | nil =>
    intro rem blocks dtm
    rfl
  | cons s rest ih =>
    intro rem blocks dtm
    simp only [todo_slot_loop, hex, Bool.and_false, Bool.false_eq_true,
      if_false]
    by_cases hdl : t.deadline ≤ s
    · rw [if_pos hdl, if_pos hdl]
    · rw [if_neg hdl, if_neg hdl]
      by_cases hrem : rem ≤ 0
      · rw [if_pos hrem, if_pos hrem]
      · rw [if_neg hrem, if_neg hrem]
        exact ih _ _ _

theorem process_todos_cram_of_no_exam (now : Nat) (slots : List Nat)
    (sh eh : Nat) (mmpd : Option Nat) :
    ∀ (ts : List TodoTask) (blocks : List ScheduledBlock) (dtm : List (Nat × Nat)),
      (∀ t' ∈ ts, t'.exam_or_not = false) →
      process_todos now slots true sh eh mmpd ts blocks dtm =
        process_todos now slots false sh eh mmpd ts blocks dtm := by
  intro ts
  induction ts with
  | nil =>
    intro blocks dtm _
    rfl
  | cons t ts ih =>
    intro blocks dtm hall
    have hex : t.exam_or_not = false := hall t (List.mem_cons_self t ts)
    have hall' : ∀ t' ∈ ts, t'.exam_or_not = false := fun t' ht' =>
      hall t' (List.mem_cons_of_mem t ht')
    simp only [process_todos]
    by_cases hdl : t.deadline ≤ now
    · rw [if_pos hdl, if_pos hdl]
      exact ih blocks dtm hall'
    · rw [if_neg hdl, if_neg hdl,
        todo_slot_loop_cram_of_not_exam sh eh mmpd t (normEst t) hex]
      rcases hloop : todo_slot_loop false sh eh mmpd t (normEst t) slots
          (normEst t) blocks dtm with _ | ⟨rem₁, blocks₁, dtm₁⟩
      · rfl
      · simp only
        exact ih blocks₁ dtm₁ hall'

theorem pairwise_key_orderedInsert {α : Type} (r : α → α → Prop) [DecidableRel r]
    (S : α → α → Prop) (htot : ∀ a b, r a b ∨ r b a)
    (htrans : ∀ a b c, r a b → r b c → r a c) (x : α) :
    ∀ L : List α, L.Sorted r →
      L.Pairwise (fun a b => r a b ∧ (r b a → S a b)) →
      (∀ y ∈ L, S x y) →
      (List.orderedInsert r x L).Pairwise (fun a b => r a b ∧ (r b a → S a b)) := by
  intro L
  induction L with
  | nil =>
    intro _ _ _
    simp
  | cons y ys ih =>
    intro hsort hpair hS
    rw [List.orderedInsert]
    by_cases hxy : r x y
    · rw [if_pos hxy]
      refine List.pairwise_cons.mpr ⟨?_, hpair⟩
      intro z hz
      refine ⟨?_, fun _ => hS z hz⟩
      rcases List.mem_cons.mp hz with rfl | hzys
      · exact hxy
      · exact htrans x y z hxy (List.rel_of_sorted_cons hsort z hzys)
    · rw [if_neg hxy]
      refine List.pairwise_cons.mpr ⟨?_, ?_⟩
      · intro z hz
        rcases (List.mem_orderedInsert r).mp hz with rfl | hzys
        · exact ⟨(htot z y).resolve_left hxy, fun hzy => absurd hzy hxy⟩
        · exact (List.pairwise_cons.mp hpair).1 z hzys
      · exact ih hsort.of_cons (List.pairwise_cons.mp hpair).2
          (fun z hz => hS z (List.mem_cons_of_mem y hz))

theorem pairwise_key_insertionSort {α : Type} (r : α → α → Prop) [DecidableRel r]
    (S : α → α → Prop) (htot : ∀ a b, r a b ∨ r b a)
    (htrans : ∀ a b c, r a b → r b c → r a c) :
    ∀ l : List α, l.Pairwise S →
      (List.insertionSort r l).Pairwise (fun a b => r a b ∧ (r b a → S a b)) := by
  haveI : IsTotal α r := ⟨htot⟩
  haveI : IsTrans α r := ⟨htrans⟩
  intro l
  induction l with
  | nil =>
    intro _
    simp
  | cons x xs ih =>
    intro hpair
    rw [List.insertionSort]
    refine pairwise_key_orderedInsert r S htot htrans x _ ?_ ?_ ?_
    · exact List.sorted_insertionSort r xs
    · exact ih (List.pairwise_cons.mp hpair).2
    · intro y hy
      exact (List.pairwise_cons.mp hpair).1 y ((List.mem_insertionSort r).mp hy)

theorem sort_todos_some_perm {ts ts' : List TodoTask}
    (h : sort_todos ts = some ts') : ts'.Perm ts := by
  simp only [sort_todos] at h
  by_cases hc : 2 ≤ ts.length ∧ ∃ t ∈ ts, t.priority = none
  · rw [if_pos hc] at h
    exact absurd h (by simp)
  · rw [if_neg hc] at h
    obtain rfl := Option.some.inj h
    exact (List.perm_insertionSort _ _).trans (List.perm_insertionSort _ _)

theorem build_schedule_some (parsed : ParsedInput) (days : Nat)
    (start_date : Option Nat) (max_hours_per_day : Option Nat)
    (ssh seh : Option Nat) (cram : Bool) (now : Nat) (bs : List ScheduledBlock)
    (h : build_schedule parsed days start_date max_hours_per_day ssh seh cram
      now = some bs) :
    ∃ todos r, sort_todos parsed.todos = some todos ∧
      process_todos now
        (iter_study_slots (effective_date start_date (now / 1440) * 1440) days
          (ssh.getD DEFAULT_STUDY_START_HOUR)
          (normalized_end_hour (ssh.getD DEFAULT_STUDY_START_HOUR)
            (seh.getD DEFAULT_STUDY_END_HOUR)))
        cram (ssh.getD DEFAULT_STUDY_START_HOUR)
        (normalized_end_hour (ssh.getD DEFAULT_STUDY_START_HOUR)
          (seh.getD DEFAULT_STUDY_END_HOUR))
        (max_hours_per_day.map (· * 60))
        todos (fixed_blocks parsed.fixed_events) [] =
        some r ∧ bs = sort_blocks r.1 := by
  simp only [build_schedule] at h
  rcases hsort : sort_todos parsed.todos with _ | todos
  · simp only [hsort] at h
    exact absurd h (by simp)
  · simp only [hsort] at h
    rw [Option.map_eq_some'] at h
    obtain ⟨r, hr, hbs⟩ := h
    exact ⟨todos, r, rfl, hr, hbs.symm⟩

/-- C10: if no todo is exam-flagged, the cram flag does not change the output
of `build_schedule` at all. -/
theorem build_schedule_cram_noop_without_exams (parsed : ParsedInput)
    (days : Nat) (start_date : Option Nat) (max_hours_per_day : Option Nat)
    (ssh seh : Option Nat) (now : Nat)
    (h : ∀ t ∈ parsed.todos, t.exam_or_not = false) :
    build_schedule parsed days start_date max_hours_per_day ssh seh true now =
      build_schedule parsed days start_date max_hours_per_day ssh seh false
        now := by
  simp only [build_schedule]
  rcases hsort : sort_todos parsed.todos with _ | todos
  · rfl
  · have hall : ∀ t ∈ todos, t.exam_or_not = false := fun t ht =>
      h t ((sort_todos_some_perm hsort).subset ht)
    exact congrArg (Option.map fun r => sort_blocks r.1)
      (process_todos_cram_of_no_exam _ _ _ _ _ _ _ _ hall)

/-- C10 witness at a concrete non-exam input. -/
theorem build_schedule_cram_noop_without_exams_witness :
    build_schedule ⟨[], [⟨"T", none, 2879, 60, none, some 101, false⟩], []⟩ 1 none
        none none none true 0 =
      build_schedule ⟨[], [⟨"T", none, 2879, 60, none, some 101, false⟩], []⟩ 1
        none none none none false 0 :=
  build_schedule_cram_noop_without_exams
    ⟨[], [⟨"T", none, 2879, 60, none, some 101, false⟩], []⟩
    1 none none none none 0 (by decide)

/-- C6: whenever `build_schedule`'s task ordering (a stable sort by deadline
followed by a stable sort by the optional priority) succeeds — i.e., no
`None` priority takes part in a comparison — it yields a permutation of the
input todos in which priority values ascend and, among equal priorities,
deadlines ascend; so of two tasks with distinct priority numbers the one with
the smaller number is processed (and greedily granted its minutes, up to its
need) before the other is granted any. -/
theorem sort_todos_order (ts ts' : List TodoTask)
    (h : sort_todos ts = some ts') :
    ts'.Perm ts ∧
      ts'.Pairwise fun a b => a.priority.getD 0 ≤ b.priority.getD 0 ∧
        (a.priority.getD 0 = b.priority.getD 0 → a.deadline ≤ b.deadline) := by
  refine ⟨sort_todos_some_perm h, ?_⟩
  simp only [sort_todos] at h
  by_cases hc : 2 ≤ ts.length ∧ ∃ t ∈ ts, t.priority = none
  · rw [if_pos hc] at h
    exact absurd h (by simp)
  · rw [if_neg hc] at h
    obtain rfl := Option.some.inj h
    haveI : IsTotal TodoTask (fun a b : TodoTask => a.deadline ≤ b.deadline) :=
      ⟨fun a b => Nat.le_total _ _⟩
    haveI : IsTrans TodoTask (fun a b : TodoTask => a.deadline ≤ b.deadline) :=
      ⟨fun _ _ _ => Nat.le_trans⟩
    have h1 : (List.insertionSort (fun a b : TodoTask => a.deadline ≤ b.deadline)
        ts).Pairwise fun a b => a.deadline ≤ b.deadline :=
      List.sorted_insertionSort _ ts
    have h2 := pairwise_key_insertionSort
      (fun a b : TodoTask => a.priority.getD 0 ≤ b.priority.getD 0)
      (fun a b : TodoTask => a.deadline ≤ b.deadline)
      (fun a b => Int.le_total _ _) (fun _ _ _ => le_trans) _ h1
    exact h2.imp fun hab => ⟨hab.1, fun heq => hab.2 (le_of_eq heq.symm)⟩

/-- C6 witness: two prioritized todos are reordered by ascending priority. -/
theorem sort_todos_order_witness :
    ([⟨"B", none, 100, 60, none, some 1, false⟩,
      ⟨"A", none, 200, 60, none, some 2, false⟩] : List TodoTask).Perm
      [⟨"A", none, 200, 60, none, some 2, false⟩,
       ⟨"B", none, 100, 60, none, some 1, false⟩] ∧
      ([⟨"B", none, 100, 60, none, some 1, false⟩,
        ⟨"A", none, 200, 60, none, some 2, false⟩] :
        List TodoTask).Pairwise fun a b =>
          a.priority.getD 0 ≤ b.priority.getD 0 ∧
            (a.priority.getD 0 = b.priority.getD 0 →
              a.deadline ≤ b.deadline) :=
  sort_todos_order
    [⟨"A", none, 200, 60, none, some 2, false⟩,
     ⟨"B", none, 100, 60, none, some 1, false⟩]
    [⟨"B", none, 100, 60, none, some 1, false⟩,
     ⟨"A", none, 200, 60, none, some 2, false⟩] rfl

/-- C3: if the caller's fixed events are mutually non-overlapping, then no two
blocks of `build_schedule`'s output overlap. -/
theorem build_schedule_no_overlap (parsed : ParsedInput) (days : Nat)
    (start_date : Option Nat) (max_hours_per_day : Option Nat)
    (ssh seh : Option Nat) (cram : Bool) (now : Nat) (bs : List ScheduledBlock)
    (hfix : parsed.fixed_events.Pairwise fun e f =>
      e.end_ ≤ f.start ∨ f.end_ ≤ e.start)
    (hbs : build_schedule parsed days start_date max_hours_per_day ssh seh
      cram now = some bs) :
    bs.Pairwise no_overlap := by
  obtain ⟨todos, r, hsort, hp, rfl⟩ := build_schedule_some parsed days
    start_date max_hours_per_day ssh seh cram now bs hbs
  rcases r with ⟨blocks', dtm'⟩
  have h0 : (fixed_blocks parsed.fixed_events).Pairwise no_overlap := by
    unfold fixed_blocks
    rw [List.pairwise_map]
    exact hfix.imp fun h => h
  have h1 : blocks'.Pairwise no_overlap :=
    process_todos_preserves (fun l => l.Pairwise no_overlap)
      (fun mmpd t s rem blocks dtm hP => todo_slot_step_nov mmpd t s rem blocks
        dtm hP) _ _ _ _ _ _ _ _ _ _ _ hp h0
  exact ((List.perm_insertionSort _ _).pairwise_iff
    (fun h => no_overlap_symm h)).mpr h1

/-- C3 witness at a concrete input with a fixed event and a capped todo. -/
theorem build_schedule_no_overlap_witness :
    ([⟨"F", 1140, 1200, "fixed"⟩, ⟨"T", 1200, 1230, "todo"⟩,
      ⟨"T", 1230, 1260, "todo"⟩, ⟨"T", 1260, 1290, "todo"⟩] :
      List ScheduledBlock).Pairwise no_overlap :=
  build_schedule_no_overlap
    ⟨[], [⟨"T", none, 2879, 90, none, some 101, false⟩], [⟨"F", 1140, 1200⟩]⟩
    1 none (some 2) none none false 0
    [⟨"F", 1140, 1200, "fixed"⟩, ⟨"T", 1200, 1230, "todo"⟩,
      ⟨"T", 1230, 1260, "todo"⟩, ⟨"T", 1260, 1290, "todo"⟩]
    (by decide) rfl

/-- C2 amended: every flexible block of the output carries the title of some
input todo whose deadline is strictly after the block's START; the block is
exactly one `BLOCK_MINUTES` long, so its end may exceed that deadline by up
to `BLOCK_MINUTES` (the source only stops once a slot's start reaches the
deadline). -/
theorem todo_block_start_before_deadline (parsed : ParsedInput) (days : Nat)
    (start_date : Option Nat) (max_hours_per_day : Option Nat)
    (ssh seh : Option Nat) (cram : Bool) (now : Nat) (bs : List ScheduledBlock)
    (hbs : build_schedule parsed days start_date max_hours_per_day ssh seh
      cram now = some bs) :
    ∀ b ∈ bs, b.kind = "todo" → ∃ t ∈ parsed.todos, b.title = t.title ∧
      b.start < t.deadline ∧ b.end_ = b.start + BLOCK_MINUTES := by
  obtain ⟨todos, r, hsort, hp, rfl⟩ := build_schedule_some parsed days
    start_date max_hours_per_day ssh seh cram now bs hbs
  rcases r with ⟨blocks', dtm'⟩
  obtain ⟨ns, rfl, hprops⟩ := process_todos_spec _ _ _ _ _ _ _ _ _ _ _ hp
  intro b hb hk
  have hbmem : b ∈ fixed_blocks parsed.fixed_events ++ ns :=
    (List.perm_insertionSort _ _).subset hb
  rcases List.mem_append.mp hbmem with hfx | hns
  · exfalso
    unfold fixed_blocks at hfx
    obtain ⟨e, _, rfl⟩ := List.mem_map.mp hfx
    simp at hk
  · obtain ⟨t0, ht0, _, _, k2, k3, _, k5⟩ := hprops b hns
    have ht0' : t0 ∈ parsed.todos := (sort_todos_some_perm hsort).subset ht0
    exact ⟨t0, ht0', k2, k5, k3⟩

/-- C2 counterexample: with the single todo "T" of deadline 19:59 on day one
(minute 1199), the engine commits a block 19:30-20:00 whose end (minute 1200)
lies strictly after the deadline, so "every flexible block's end is at most
its task's deadline" fails. -/
theorem todo_block_deadline_cex :
    ∃ b ∈ (build_schedule
        ⟨[], [⟨"T", none, 1199, 60, none, some 101, false⟩], []⟩
        1 none none none none false 0).getD [],
      b.kind = "todo" ∧
        ∃ t ∈ (⟨[], [⟨"T", none, 1199, 60, none, some 101, false⟩], []⟩ :
          ParsedInput).todos, b.title = t.title ∧ t.deadline < b.end_ := by
  decide

/-- C2 witness for the amended statement, at the straddling block itself. -/
theorem todo_block_start_before_deadline_witness :
    ∃ t ∈ (⟨[], [⟨"T", none, 1199, 60, none, some 101, false⟩], []⟩ :
        ParsedInput).todos,
      (⟨"T", 1170, 1200, "todo"⟩ : ScheduledBlock).title = t.title ∧
      (⟨"T", 1170, 1200, "todo"⟩ : ScheduledBlock).start < t.deadline ∧
      (⟨"T", 1170, 1200, "todo"⟩ : ScheduledBlock).end_ =
        (⟨"T", 1170, 1200, "todo"⟩ : ScheduledBlock).start + BLOCK_MINUTES :=
  todo_block_start_before_deadline
    ⟨[], [⟨"T", none, 1199, 60, none, some 101, false⟩], []⟩ 1 none none none none
    false 0 [⟨"T", 1140, 1170, "todo"⟩, ⟨"T", 1170, 1200, "todo"⟩] rfl
    ⟨"T", 1170, 1200, "todo"⟩ (by decide) rfl

/-- C8: a todo whose deadline is at or before the "now" of the call, and whose
title no other input todo carries, contributes no flexible block to the
output (it is silently skipped, never an error). -/
theorem overdue_task_gets_no_blocks (parsed : ParsedInput) (days : Nat)
    (start_date : Option Nat) (max_hours_per_day : Option Nat)
    (ssh seh : Option Nat) (cram : Bool) (now : Nat) (bs : List ScheduledBlock)
    (t : TodoTask)
    (hbs : build_schedule parsed days start_date max_hours_per_day ssh seh
      cram now = some bs)
    (ht : t ∈ parsed.todos) (hod : t.deadline ≤ now)
    (huniq : ∀ t' ∈ parsed.todos, t'.title = t.title → t' = t) :
    ∀ b ∈ bs, b.kind = "todo" → b.title ≠ t.title := by
  obtain ⟨todos, r, hsort, hp, rfl⟩ := build_schedule_some parsed days
    start_date max_hours_per_day ssh seh cram now bs hbs
  rcases r with ⟨blocks', dtm'⟩
  obtain ⟨ns, rfl, hprops⟩ := process_todos_spec _ _ _ _ _ _ _ _ _ _ _ hp
  intro b hb hk hTeq
  have hbmem : b ∈ fixed_blocks parsed.fixed_events ++ ns :=
    (List.perm_insertionSort _ _).subset hb
  rcases List.mem_append.mp hbmem with hfx | hns
  · unfold fixed_blocks at hfx
    obtain ⟨e, _, rfl⟩ := List.mem_map.mp hfx
    simp at hk
  · obtain ⟨t0, ht0, hnow, _, k2, _, _, _⟩ := hprops b hns
    have ht0' : t0 ∈ parsed.todos := (sort_todos_some_perm hsort).subset ht0
    have heq : t0 = t := huniq t0 ht0' (by rw [← k2, hTeq])
    subst heq
    omega

/-- C8 witness: an overdue todo "O" next to a live todo "T"; the single
committed block does not carry the overdue title. -/
theorem overdue_task_gets_no_blocks_witness :
    (⟨"T", 1140, 1170, "todo"⟩ : ScheduledBlock).title ≠ "O" :=
  overdue_task_gets_no_blocks
    ⟨[], [⟨"O", none, 90, 60, none, some 101, false⟩,
      ⟨"T", none, 2879, 30, none, some 101, false⟩], []⟩
    1 none none none none false 100 [⟨"T", 1140, 1170, "todo"⟩]
    ⟨"O", none, 90, 60, none, some 101, false⟩ rfl (by decide) (by decide)
    (by decide) ⟨"T", 1140, 1170, "todo"⟩ (by decide) rfl

theorem normalized_end_hour_le (sh eh : Nat) (heh : eh ≤ 23) :
    normalized_end_hour sh eh ≤ 23 := by
  unfold normalized_end_hour
  split <;> omega

/-- C9: with valid clock hours, every flexible block of the output starts in
the horizon [effective start, effective start + days), ends within it, and
lies inside the configured (normalized) daily window of its calendar day:
its start is in [startHour:00, endHour:00) and its end is at most endHour:00. -/
theorem todo_block_containment (parsed : ParsedInput) (days : Nat)
    (start_date : Option Nat) (max_hours_per_day : Option Nat)
    (ssh seh : Option Nat) (cram : Bool) (now : Nat) (bs : List ScheduledBlock)
    (hsh : ssh.getD DEFAULT_STUDY_START_HOUR ≤ 23)
    (heh : seh.getD DEFAULT_STUDY_END_HOUR ≤ 23)
    (hbs : build_schedule parsed days start_date max_hours_per_day ssh seh
      cram now = some bs) :
    ∀ b ∈ bs, b.kind = "todo" →
      effective_date start_date (now / 1440) * 1440 ≤ b.start ∧
      b.end_ ≤ effective_date start_date (now / 1440) * 1440 + days * 1440 ∧
      b.start / 1440 * 1440 + ssh.getD DEFAULT_STUDY_START_HOUR * 60 ≤
        b.start ∧
      b.start < b.start / 1440 * 1440 +
        normalized_end_hour (ssh.getD DEFAULT_STUDY_START_HOUR)
          (seh.getD DEFAULT_STUDY_END_HOUR) * 60 ∧
      b.end_ ≤ b.start / 1440 * 1440 +
        normalized_end_hour (ssh.getD DEFAULT_STUDY_START_HOUR)
          (seh.getD DEFAULT_STUDY_END_HOUR) * 60 := by
  obtain ⟨todos, r, hsort, hp, rfl⟩ := build_schedule_some parsed days
    start_date max_hours_per_day ssh seh cram now bs hbs
  rcases r with ⟨blocks', dtm'⟩
  obtain ⟨ns, rfl, hprops⟩ := process_todos_spec _ _ _ _ _ _ _ _ _ _ _ hp
  intro b hb hk
  have hbmem : b ∈ fixed_blocks parsed.fixed_events ++ ns :=
    (List.perm_insertionSort _ _).subset hb
  rcases List.mem_append.mp hbmem with hfx | hns
  · exfalso
    unfold fixed_blocks at hfx
    obtain ⟨e, _, rfl⟩ := List.mem_map.mp hfx
    simp at hk
  · obtain ⟨t0, _, _, _, _, k3, k4, _⟩ := hprops b hns
    have heh' : normalized_end_hour (ssh.getD DEFAULT_STUDY_START_HOUR)
        (seh.getD DEFAULT_STUDY_END_HOUR) ≤ 23 :=
      normalized_end_hour_le _ _ heh
    rw [mem_iter_study_slots hsh heh'] at k4
    obtain ⟨d, hd, k, hkk, hstart⟩ := k4
    have hE : effective_date start_date (now / 1440) * 1440 / 1440 =
        effective_date start_date (now / 1440) :=
      Nat.mul_div_cancel _ (by omega)
    rw [hE] at hstart
    simp only [BLOCK_MINUTES] at k3
    refine ⟨by omega, by omega, by omega, by omega, by omega⟩

/-- C9 witness at a concrete run with default hours, at the last block. -/
theorem todo_block_containment_witness :
    effective_date none (0 / 1440) * 1440 ≤ 1170 ∧
    (1200 : Nat) ≤ effective_date none (0 / 1440) * 1440 + 1 * 1440 ∧
    1170 / 1440 * 1440 +
      (none : Option Nat).getD DEFAULT_STUDY_START_HOUR * 60 ≤ 1170 ∧
    (1170 : Nat) < 1170 / 1440 * 1440 +
      normalized_end_hour ((none : Option Nat).getD DEFAULT_STUDY_START_HOUR)
        ((none : Option Nat).getD DEFAULT_STUDY_END_HOUR) * 60 ∧
    (1200 : Nat) ≤ 1170 / 1440 * 1440 +
      normalized_end_hour ((none : Option Nat).getD DEFAULT_STUDY_START_HOUR)
        ((none : Option Nat).getD DEFAULT_STUDY_END_HOUR) * 60 :=
  todo_block_containment
    ⟨[], [⟨"T", none, 2879, 60, none, some 101, false⟩], []⟩ 1 none none none none
    false 0 [⟨"T", 1140, 1170, "todo"⟩, ⟨"T", 1170, 1200, "todo"⟩]
    (by decide) (by decide) rfl ⟨"T", 1170, 1200, "todo"⟩ (by decide) rfl

/-- C1 counterexample: a 45-minute estimate (not a multiple of
`BLOCK_MINUTES` = 30) yields two 30-minute blocks, 60 committed minutes,
exceeding the estimated duration. -/
theorem budget_respect_cex :
    (45 : Nat) < todo_minutes "T"
      ((build_schedule ⟨[], [⟨"T", none, 2879, 45, none, some 101, false⟩], []⟩
        1 none none none none false 0).getD []) := by
  decide

/-- C1 amended: for a todo whose title is carried by no other input todo, the
committed minutes for that title never exceed the normalized estimate rounded
UP to the next multiple of `BLOCK_MINUTES` (the loop stops only once the
remaining minutes reach zero, so the last block may overshoot). -/
theorem build_schedule_budget_roundup (parsed : ParsedInput) (days : Nat)
    (start_date : Option Nat) (max_hours_per_day : Option Nat)
    (ssh seh : Option Nat) (cram : Bool) (now : Nat) (bs : List ScheduledBlock)
    (t : TodoTask)
    (hbs : build_schedule parsed days start_date max_hours_per_day ssh seh
      cram now = some bs)
    (ht : t ∈ parsed.todos)
    (huniq : (parsed.todos.countP fun t' => t'.title == t.title) ≤ 1) :
    todo_minutes t.title bs ≤
      BLOCK_MINUTES * (((normEst t).toNat + (BLOCK_MINUTES - 1)) /
        BLOCK_MINUTES) := by
  obtain ⟨todos, r, hsort, hp, rfl⟩ := build_schedule_some parsed days
    start_date max_hours_per_day ssh seh cram now bs hbs
  rcases r with ⟨blocks', dtm'⟩
  have hb := process_todos_budget t.title _ _ _ _ _ _ _ _ _ _ _ hp
  rw [todo_minutes_fixed_blocks] at hb
  have hsb : todo_minutes t.title (sort_blocks blocks') =
      todo_minutes t.title blocks' :=
    todo_minutes_perm _ (List.perm_insertionSort _ _)
  rw [hsb]
  refine le_trans hb ?_
  rw [Nat.zero_add]
  have hperm : todos.Perm parsed.todos := sort_todos_some_perm hsort
  have hsum : ((todos.filter fun t0 =>
      t0.title == t.title).map fun t0 =>
        BLOCK_MINUTES * (((normEst t0).toNat + (BLOCK_MINUTES - 1)) /
          BLOCK_MINUTES)).sum =
      ((parsed.todos.filter fun t0 => t0.title == t.title).map fun t0 =>
        BLOCK_MINUTES * (((normEst t0).toNat + (BLOCK_MINUTES - 1)) /
          BLOCK_MINUTES)).sum :=
    ((hperm.filter _).map _).sum_eq
  rw [hsum]
  have hfilt : (parsed.todos.filter fun t0 => t0.title == t.title) = [t] := by
    have hmem : t ∈ parsed.todos.filter fun t0 => t0.title == t.title :=
      List.mem_filter.mpr ⟨ht, by simp⟩
    have hlen : (parsed.todos.filter fun t0 => t0.title == t.title).length ≤
        1 := by
      rw [← List.countP_eq_length_filter]
      exact huniq
    have hlen1 : (parsed.todos.filter fun t0 =>
        t0.title == t.title).length = 1 :=
      Nat.le_antisymm hlen (List.length_pos_of_mem hmem)
    obtain ⟨a, ha⟩ := List.length_eq_one.mp hlen1
    rw [ha] at hmem ⊢
    rw [List.mem_singleton.mp hmem]
  rw [hfilt]
  simp

/-- C1 witness for the amended round-up bound, at the 45-minute todo. -/
theorem build_schedule_budget_roundup_witness :
    todo_minutes "T"
        [⟨"T", 1140, 1170, "todo"⟩, ⟨"T", 1170, 1200, "todo"⟩] ≤
      BLOCK_MINUTES *
        (((normEst ⟨"T", none, 2879, 45, none, some 101, false⟩).toNat +
          (BLOCK_MINUTES - 1)) / BLOCK_MINUTES) :=
  build_schedule_budget_roundup
    ⟨[], [⟨"T", none, 2879, 45, none, some 101, false⟩], []⟩ 1 none none none none
    false 0 [⟨"T", 1140, 1170, "todo"⟩, ⟨"T", 1170, 1200, "todo"⟩]
    ⟨"T", none, 2879, 45, none, some 101, false⟩ rfl (by decide) (by decide)

/-- C4: with cram mode on and no daily cap configured, an exam-flagged todo
with a future deadline makes `build_schedule` raise (the capacity estimate
multiplies the day difference by `None`); the embedded engine returns `none`
exactly where the Python raises `TypeError`. -/
theorem cram_without_cap_raises :
    build_schedule ⟨[], [⟨"E", none, 1199, 60, none, some 101, true⟩], []⟩
      1 none none none none true 0 = none := by
  decide

/-- C7 amended: in cram mode, for an exam-flagged task with a configured daily
cap, at a candidate slot strictly before the deadline while minutes remain,
the engine defers (skips the slot, leaving remaining minutes, blocks and the
day accumulator untouched) exactly when the capacity estimate exceeds the
task's TOTAL normalized estimated duration `est` — not its remaining
unscheduled minutes; otherwise the slot proceeds to the ordinary
cap/conflict/commit step. -/
theorem cram_defer_compares_total_estimate (sh eh cap : Nat) (t : TodoTask)
    (est : Int) (s : Nat) (rest : List Nat) (rem : Int)
    (blocks : List ScheduledBlock) (dtm : List (Nat × Nat))
    (hex : t.exam_or_not = true) (hdl : s < t.deadline) (hrem : 0 < rem) :
    (est < cram_capacity blocks t.deadline cap sh eh s →
      todo_slot_loop true sh eh (some cap) t est (s :: rest) rem blocks dtm =
        todo_slot_loop true sh eh (some cap) t est rest rem blocks dtm) ∧
    (cram_capacity blocks t.deadline cap sh eh s ≤ est →
      todo_slot_loop true sh eh (some cap) t est (s :: rest) rem blocks dtm =
        todo_slot_loop true sh eh (some cap) t est rest
          (todo_slot_step (some cap) t s rem blocks dtm).1
          (todo_slot_step (some cap) t s rem blocks dtm).2.1
          (todo_slot_step (some cap) t s rem blocks dtm).2.2) := by
  constructor <;> intro hcap <;>
    simp only [todo_slot_loop] <;>
    rw [if_neg (show ¬ t.deadline ≤ s by omega),
      if_neg (show ¬ rem ≤ 0 by omega),
      if_pos (show (true && t.exam_or_not) = true by rw [hex]; rfl)]
  · rw [if_pos hcap]
  · rw [if_neg (show ¬ est < cram_capacity blocks t.deadline cap sh eh s by
      omega)]

/-- C7 counterexample: the engine differs from the spec-worded variant (which
compares the capacity estimate against the REMAINING minutes): with one exam
todo (240 minutes, deadline day 2 at 23:59), a one-hour daily cap, a fixed
event filling day 2's window and cram mode on, the two produce different
block lists, so the engine's deferral is not governed by the remaining
minutes. -/
theorem cram_defer_remaining_cex :
    build_schedule
        ⟨[], [⟨"E", none, 4319, 240, none, some 101, true⟩], [⟨"F", 4020, 4260⟩]⟩
        3 none (some 1) none none true 0 ≠
      build_schedule_remaining
        ⟨[], [⟨"E", none, 4319, 240, none, some 101, true⟩], [⟨"F", 4020, 4260⟩]⟩
        3 none (some 1) none none true 0 := by
  decide

/-- C7 witness for the amended deferral characterization at a concrete state. -/
theorem cram_defer_compares_total_estimate_witness :
    ((240 : Int) < cram_capacity [⟨"F", 4020, 4260, "fixed"⟩] 4319 60 19 23
        2580 →
      todo_slot_loop true 19 23 (some 60)
          ⟨"E", none, 4319, 240, none, some 101, true⟩ 240 [2580] 180
          [⟨"F", 4020, 4260, "fixed"⟩] [] =
        todo_slot_loop true 19 23 (some 60)
          ⟨"E", none, 4319, 240, none, some 101, true⟩ 240 [] 180
          [⟨"F", 4020, 4260, "fixed"⟩] []) ∧
    (cram_capacity [⟨"F", 4020, 4260, "fixed"⟩] 4319 60 19 23 2580 ≤
        (240 : Int) →
      todo_slot_loop true 19 23 (some 60)
          ⟨"E", none, 4319, 240, none, some 101, true⟩ 240 [2580] 180
          [⟨"F", 4020, 4260, "fixed"⟩] [] =
        todo_slot_loop true 19 23 (some 60)
          ⟨"E", none, 4319, 240, none, some 101, true⟩ 240 []
          (todo_slot_step (some 60) ⟨"E", none, 4319, 240, none, some 101,
            true⟩ 2580 180 [⟨"F", 4020, 4260, "fixed"⟩] []).1
          (todo_slot_step (some 60) ⟨"E", none, 4319, 240, none, some 101,
            true⟩ 2580 180 [⟨"F", 4020, 4260, "fixed"⟩] []).2.1
          (todo_slot_step (some 60) ⟨"E", none, 4319, 240, none, some 101,
            true⟩ 2580 180 [⟨"F", 4020, 4260, "fixed"⟩] []).2.2) :=
  cram_defer_compares_total_estimate 19 23 60
    ⟨"E", none, 4319, 240, none, some 101, true⟩ 240 2580 [] 180
    [⟨"F", 4020, 4260, "fixed"⟩] [] rfl (by decide) (by decide)

/-- C5 witness at the default window over two days. -/
theorem iter_study_slots_ascending_bounded_witness :
    (iter_study_slots 0 2 19 23).Pairwise (· < ·) ∧
      ∀ s ∈ iter_study_slots 0 2 19 23,
        0 / 1440 * 1440 ≤ s ∧ s < 0 / 1440 * 1440 + 2 * 1440 :=
  iter_study_slots_ascending_bounded 0 2 19 23 (by decide) (by decide)
